import Mathlib

/-!
Shallow embedding of the utfdump encoder (`data.py`).

Python strings are modelled as lists of Unicode codepoints (`PyStr`),
bytes as natural numbers below 256, and every operation that can raise a
Python exception (failed list destructuring, `Enum` lookup, `int`
parsing, `to_bytes` overflow, string-table index overflow, `chr` range
error, UTF-8 encoding of a surrogate) returns `none`, modelling the
fatal abort of the script.
-/

namespace Utfdump

/-- A Python string: a list of Unicode codepoints. -/
abbrev PyStr := List Nat

/-- Codepoints of a Lean string literal, used to write `PyStr` constants. -/
def pstr (s : String) : PyStr := s.data.map Char.toNat

/-- ASCII whitespace recognised by Python's `str.split` / `str.strip`. -/
def isSpace (c : Nat) : Bool :=
  c == 32 || c == 9 || c == 10 || c == 13 || c == 11 || c == 12

/-- Remove leading whitespace codepoints. -/
def stripLeft : PyStr → PyStr
  | [] => []
  | c :: r => if isSpace c then stripLeft r else c :: r

/-- Python `str.strip()`: remove leading and trailing whitespace. -/
def strip (s : PyStr) : PyStr := (stripLeft ((stripLeft s).reverse)).reverse

/-- Helper for `splitOn`; `acc` holds the current field reversed. -/
def splitOnAux (sep : Nat) : PyStr → PyStr → List PyStr
  | acc, [] => [acc.reverse]
  | acc, c :: r =>
    if c = sep then acc.reverse :: splitOnAux sep [] r else splitOnAux sep (c :: acc) r

/-- Python `str.split(sep)` for a one-character separator (empty fields kept). -/
def splitOn (sep : Nat) (s : PyStr) : List PyStr := splitOnAux sep [] s

/-- Python `str.split(sep, 1)` restricted to the case used by the source:
the two-element destructuring fails (fatal) when the separator is absent,
so only the first-split pair is returned. -/
def splitOnce (sep : Nat) : PyStr → Option (PyStr × PyStr)
  | [] => none
  | c :: r =>
    if c = sep then some ([], r)
    else (splitOnce sep r).map (fun p => (c :: p.1, p.2))

/-- Helper for `splitWs`; `acc` holds the current word reversed. -/
def splitWsAux : PyStr → PyStr → List PyStr
  | acc, [] => if acc = [] then [] else [acc.reverse]
  | acc, c :: r =>
    if isSpace c then
      (if acc = [] then splitWsAux [] r else acc.reverse :: splitWsAux [] r)
    else splitWsAux (c :: acc) r

/-- Python `str.split()` with no separator: split on whitespace runs,
dropping empty fields. -/
def splitWs (s : PyStr) : List PyStr := splitWsAux [] s

/-- Python `str.startswith`. -/
def startsWith : PyStr → PyStr → Bool
  | _, [] => true
  | [], _ :: _ => false
  | c :: s, p :: ps => c == p && startsWith s ps

/-- Python `str.endswith`. -/
def endsWith (s p : PyStr) : Bool := startsWith s.reverse p.reverse

/-- Python `str.removeprefix`. -/
def dropPre (s p : PyStr) : PyStr := if startsWith s p then s.drop p.length else s

/-- Python `str.removesuffix`. -/
def dropSuf (s p : PyStr) : PyStr :=
  if endsWith s p then s.take (s.length - p.length) else s

/-- Python `str.upper` restricted to ASCII letters, which covers every
token the source upper-cases (category, bidi and decomposition tags). -/
def upperCp (c : Nat) : Nat := if 97 ≤ c ∧ c ≤ 122 then c - 32 else c

/-- Python `str.upper` (ASCII). -/
def upper (s : PyStr) : PyStr := s.map upperCp

/-- Value of one decimal digit codepoint. -/
def decDigit (c : Nat) : Option Nat :=
  if 48 ≤ c ∧ c ≤ 57 then some (c - 48) else none

/-- Value of one hexadecimal digit codepoint. -/
def hexDigit (c : Nat) : Option Nat :=
  if 48 ≤ c ∧ c ≤ 57 then some (c - 48)
  else if 65 ≤ c ∧ c ≤ 70 then some (c - 55)
  else if 97 ≤ c ∧ c ≤ 102 then some (c - 87)
  else none

/-- Accumulating digit-string parser. -/
def digitsGo (digit : Nat → Option Nat) (base : Nat) : Nat → PyStr → Option Nat
  | acc, [] => some acc
  | acc, c :: r => (digit c).bind fun d => digitsGo digit base (acc * base + d) r

/-- Python `int(s, 16)` on a stripped cell (plain hex digits; the sign,
underscore and `0x`-prefix forms Python also accepts never occur in
UnicodeData rows and are not modelled). Empty or malformed input is a
fatal `ValueError`. -/
def parseHex (s : PyStr) : Option Nat :=
  if s = [] then none else digitsGo hexDigit 16 0 s

/-- Python `int(s, 10)` on a stripped cell (plain decimal digits). -/
def parseDec (s : PyStr) : Option Nat :=
  if s = [] then none else digitsGo decDigit 10 0 s

/-- Little-endian byte list of `n`, exactly `l` bytes (truncating). -/
def natToLE : Nat → Nat → List Nat
  | 0, _ => []
  | l + 1, n => n % 256 :: natToLE l (n / 256)

/-- Python `n.to_bytes(length=l, byteorder='little', signed=False)`:
raises `OverflowError` (fatal) when `n` does not fit. -/
def toBytesLE (l n : Nat) : Option (List Nat) :=
  if n < 256 ^ l then some (natToLE l n) else none

/-- `to_bytes` on a Python `int` that may have gone negative. -/
def intToBytesLE (l : Nat) (i : Int) : Option (List Nat) :=
  if i < 0 then none else toBytesLE l i.toNat

/-- Little-endian value of a byte list. -/
def leNat : List Nat → Nat
  | [] => 0
  | b :: r => b + 256 * leNat r

/-- UTF-8 encoding of one codepoint. -/
def encodeUtf8Cp (c : Nat) : List Nat :=
  if c < 0x80 then [c]
  else if c < 0x800 then [0xC0 + c / 0x40, 0x80 + c % 0x40]
  else if c < 0x10000 then [0xE0 + c / 0x1000, 0x80 + c / 0x40 % 0x40, 0x80 + c % 0x40]
  else [0xF0 + c / 0x40000, 0x80 + c / 0x1000 % 0x40, 0x80 + c / 0x40 % 0x40,
        0x80 + c % 0x40]

/-- Python `s.encode('utf-8')`, byte content. -/
def utf8Str (s : PyStr) : List Nat := (s.map encodeUtf8Cp).flatten

/-- `s.encode('utf-8')` raises `UnicodeEncodeError` on surrogates; Python
strings cannot hold codepoints above `0x10FFFF` at all. -/
def pyEncodable (s : PyStr) : Bool :=
  s.all fun c => decide (c < 0xD800 ∨ (0xDFFF < c ∧ c ≤ 0x10FFFF))

/-- The "invalid index" sentinel `StringTableIndex.invalid()`, as the
3-byte value it denotes. -/
def invalidIdx : Nat := 0xffffff

/-- `StringTableIndex.from_int`: a non-nil index must be strictly below
the sentinel, otherwise `ValueError` (fatal). A `StringTableIndex` is
modelled by its numeric value below `2 ^ 24`; `to_bytes` is `natToLE 3`. -/
def fromInt (i : Nat) : Option Nat := if 0xffffff ≤ i then none else some i

/-- The string table: the byte buffer plus the dedup dict from string
content to insertion offset (`StringTable.__buf` / `StringTable.__map`). -/
structure StringTable where
  buf : List Nat
  map : List (PyStr × Nat)
deriving DecidableEq

/-- Lookup in the dedup dict. -/
def dictFind : List (PyStr × Nat) → PyStr → Option Nat
  | [], _ => none
  | (k, v) :: r, s => if s = k then some v else dictFind r s

def emptyStringTable : StringTable := ⟨[], []⟩

/-- `StringTable.push`: return the existing offset when the string was
seen before, otherwise append `(length, bytes)` and record the offset.
The 1-byte length write fails for strings over 255 UTF-8 bytes, and
`from_int` fails at or above the sentinel. -/
def push (t : StringTable) (s : PyStr) : Option (Nat × StringTable) :=
  match dictFind t.map s with
  | some i => (fromInt i).map fun j => (j, t)
  | none =>
    if pyEncodable s then
      if (utf8Str s).length ≤ 255 then
        (fromInt t.buf.length).map fun j =>
          (j, ⟨t.buf ++ (utf8Str s).length :: utf8Str s, (s, t.buf.length) :: t.map⟩)
      else none
    else none

/-- Fold `push` over a list of strings, keeping only the table. -/
def pushAll : StringTable → List PyStr → Option StringTable
  | t, [] => some t
  | t, s :: ss => (push t s).bind fun p => pushAll p.2 ss

/-- Member-name lookup in a Python `Enum` class. -/
def enumOf : List (String × Nat) → PyStr → Option Nat
  | [], _ => none
  | (t, v) :: r, s => if s = pstr t then some v else enumOf r s

/-- The `Category` enum. -/
def categoryTokens : List (String × Nat) :=
  [("LU", 0), ("LL", 1), ("LT", 2), ("MN", 3), ("MC", 4), ("ME", 5), ("ND", 6),
   ("NL", 7), ("NO", 8), ("ZS", 9), ("ZL", 10), ("ZP", 11), ("CC", 12), ("CF", 13),
   ("CS", 14), ("CO", 15), ("CN", 16), ("LM", 17), ("LO", 18), ("PC", 19),
   ("PD", 20), ("PS", 21), ("PE", 22), ("PI", 23), ("PF", 24), ("PO", 25),
   ("SM", 26), ("SC", 27), ("SK", 28), ("SO", 29)]

/-- The `Bidi` enum. -/
def bidiTokens : List (String × Nat) :=
  [("L", 0), ("R", 1), ("AL", 2), ("EN", 3), ("ES", 4), ("ET", 5), ("AN", 6),
   ("CS", 7), ("NSM", 8), ("BN", 9), ("B", 10), ("S", 11), ("WS", 12), ("ON", 13),
   ("LRE", 14), ("LRO", 15), ("RLE", 16), ("RLO", 17), ("PDF", 18), ("LRI", 19),
   ("RLI", 20), ("FSI", 21), ("PDI", 22)]

/-- The `DecompKind` enum. -/
def decompTokens : List (String × Nat) :=
  [("NONE", 0), ("ANONYMOUS", 1), ("NOBREAK", 2), ("COMPAT", 3), ("SUPER", 4),
   ("FRACTION", 5), ("SUB", 6), ("FONT", 7), ("CIRCLE", 8), ("WIDE", 9),
   ("VERTICAL", 10), ("SQUARE", 11), ("ISOLATED", 12), ("FINAL", 13),
   ("INITIAL", 14), ("MEDIAL", 15), ("SMALL", 16), ("NARROW", 17)]

/-- The `GroupKind` enum. -/
inductive GroupKind
  | noValue
  | usePrev
deriving DecidableEq

/-- `GroupKind.value`: `NO_VALUE = 0`, `USE_PREV_VALUE = 1`. -/
def GroupKind.val : GroupKind → Nat
  | .noValue => 0
  | .usePrev => 1

/-- A `Group(kind, start, end)`; the Python `end` field is called `stop`
here because `end` is a Lean keyword. -/
structure Group where
  kind : GroupKind
  start : Nat
  stop : Nat
deriving DecidableEq

/-- `parse_codepoint_string`: whitespace-separated hex codepoints, each
turned into the corresponding character (`chr` raises for values above
`0x10FFFF`) and concatenated. -/
def parseCodepointString (s : PyStr) : Option PyStr :=
  (splitWs s).mapM fun cp =>
    (parseHex cp).bind fun n => if n ≤ 0x10FFFF then some n else none

/-- `encode_char_data`: pack one 28-byte character record. The `code`
parameter is accepted and unused, as in the source. -/
def encodeCharData (code : Nat) (name : Nat) (category : Nat) (combining : Nat)
    (bidi : Nat) (decompKind : Nat) (decomp : Nat) (decimalDigit : Option Nat)
    (digit : Option Nat) (numericValue : Nat) (mirrored : Bool) (oldName : Nat)
    (comment : Nat) (uppercase : Nat) (lowercase : Nat) (titlecase : Nat) :
    Option (List Nat) :=
  let flags := (category &&& 0x1f) ||| ((bidi &&& 0x1f) <<< 5) |||
      ((decompKind &&& 0x1f) <<< 10) ||| ((if mirrored then 1 else 0) <<< 15)
  (toBytesLE 2 flags).bind fun fb =>
  (toBytesLE 3 name).bind fun nb =>
  (toBytesLE 3 decomp).bind fun db =>
  (toBytesLE 3 numericValue).bind fun vb =>
  (toBytesLE 3 oldName).bind fun ob =>
  (toBytesLE 3 comment).bind fun cb =>
  (toBytesLE 3 uppercase).bind fun ub =>
  (toBytesLE 3 lowercase).bind fun lb =>
  (toBytesLE 3 titlecase).bind fun tb =>
  (toBytesLE 1 combining).bind fun kb =>
  let dd := match decimalDigit with | none => 0xf | some d => d
  let dg := match digit with | none => 0xf | some d => d
  let digitVals := (dd &&& 0xf) ||| ((dg <<< 4) &&& 0xf)
  (toBytesLE 1 digitVals).bind fun gb =>
  some (fb ++ nb ++ db ++ vb ++ ob ++ cb ++ ub ++ lb ++ tb ++ kb ++ gb)

/-- The mutable state of the row loop: `char_data_table`, `string_table`,
`groups`, `in_group`, `prev_code`. -/
structure EncState where
  charTable : List Nat
  table : StringTable
  groups : List Group
  inGroup : Bool
  prevCode : Option Nat
deriving DecidableEq

def initState : EncState := ⟨[], emptyStringTable, [], false, none⟩

/-- The gap rule: when not closing a range and `code > prev_code + 1`,
append a `NO_VALUE` group covering the unassigned codepoints. -/
def gapGroups (groups : List Group) (prevCode : Option Nat) (code : Nat) :
    List Group :=
  match prevCode with
  | some p =>
    if p + 1 < code then groups ++ [Group.mk .noValue (p + 1) (code - 1)] else groups
  | none => groups

/-- Push an optional raw cell: empty cells get the invalid sentinel. -/
def optPush (t : StringTable) (c : PyStr) : Option (Nat × StringTable) :=
  if c = [] then some (invalidIdx, t) else push t c

/-- Push an optional case-mapping cell through `parse_codepoint_string`. -/
def optCaseMap (t : StringTable) (c : PyStr) : Option (Nat × StringTable) :=
  if c = [] then some (invalidIdx, t)
  else (parseCodepointString c).bind fun s => push t s

/-- Parse an optional digit cell (`int(cell, 10)` when nonempty). -/
def optDigit (c : PyStr) : Option (Option Nat) :=
  if c = [] then some none else (parseDec c).map some

/-- The decomposition block: returns `(decomp_kind, decomp index, table)`.
An empty cell gives kind `NONE` and the invalid index; a leading `<`
selects the kind from the upper-cased bracketed tag with the remainder as
the codepoint list; otherwise the kind is `ANONYMOUS` and the whole cell
is the codepoint list. -/
def handleDecomp (t : StringTable) (c : PyStr) : Option (Nat × Nat × StringTable) :=
  if c = [] then some (0, invalidIdx, t)
  else if startsWith c (pstr "<") then
    (splitOnce 62 (dropPre c (pstr "<"))).bind fun ab =>
    (enumOf decompTokens (upper (strip ab.1))).bind fun k =>
    (parseCodepointString (strip ab.2)).bind fun s =>
    (push t s).map fun it => (k, it.1, it.2)
  else
    (parseCodepointString c).bind fun s =>
    (push t s).map fun it => (1, it.1, it.2)

/-- The record-creating tail of the loop body (source lines 326-415):
name handling with the First-marker rule, field parsing, and the append
of the encoded 28-byte record. `st` already carries the updated groups
and `prev_code`. -/
def makeRecord (st : EncState) (code : Nat)
    (c1 c2 c3 c4 c5 c6 c7 c8 c9 c10 c11 c12 c13 c14 : PyStr) : Option EncState :=
  (push st.table
      (if startsWith c1 (pstr "<") && endsWith c1 (pstr ", First>") then
        dropSuf (dropPre c1 (pstr "<")) (pstr ", First>")
      else c1)).bind fun np =>
  (enumOf categoryTokens (upper c2)).bind fun category =>
  (parseDec c3).bind fun combining =>
  (enumOf bidiTokens (upper c4)).bind fun bidi =>
  (handleDecomp np.2 c5).bind fun dk =>
  (optDigit c6).bind fun decimalDigit =>
  (optDigit c7).bind fun digit =>
  (optPush dk.2.2 c8).bind fun nv =>
  (optPush nv.2 c10).bind fun onm =>
  (optPush onm.2 c11).bind fun cmt =>
  (optCaseMap cmt.2 c12).bind fun up =>
  (optCaseMap up.2 c13).bind fun lo =>
  (optCaseMap lo.2 c14).bind fun ti =>
  (encodeCharData code np.1 category combining bidi dk.1 dk.2.1 decimalDigit digit
      nv.1 (c9 == pstr "Y") onm.1 cmt.1 up.1 lo.1 ti.1).bind fun r =>
  some { st with
          charTable := st.charTable ++ r,
          table := ti.2,
          inGroup := startsWith c1 (pstr "<") && endsWith c1 (pstr ", First>") }

/-- The `in_group` branch of the loop body (source lines 309-324): the
row must be the Last-marker row, the range group is appended with start
`prev_code + 1`, no record is created, and the tracker leaves the range.
`prev_code` being unset here would be a Python `TypeError` (fatal). -/
def closeRange (st : EncState) (code : Nat) (c1 : PyStr) : Option EncState :=
  match st.prevCode with
  | some p =>
    if startsWith c1 (pstr "<") && endsWith c1 (pstr ", Last>") then
      some { st with
              groups := st.groups ++ [Group.mk .usePrev (p + 1) code],
              inGroup := false,
              prevCode := some code }
    else none
  | none => none

/-- One iteration of the row loop, on the 15 stripped cells. -/
def processCells (st : EncState) (cs : List PyStr) : Option EncState :=
  match cs with
  | [c0, c1, c2, c3, c4, c5, c6, c7, c8, c9, c10, c11, c12, c13, c14] =>
    (parseHex c0).bind fun code =>
    (match st.prevCode with
     | none => some ()
     | some p => if p < code then some () else none).bind fun _ =>
    if st.inGroup then closeRange st code c1
    else
      makeRecord
        { st with
            groups := gapGroups st.groups st.prevCode code,
            prevCode := some code }
        code c1 c2 c3 c4 c5 c6 c7 c8 c9 c10 c11 c12 c13 c14
  | _ => none

/-- One iteration of the row loop on a raw row: split on `;`, strip each
cell, destructure into exactly 15 cells (fatal otherwise). -/
def processRow (st : EncState) (row : PyStr) : Option EncState :=
  processCells st ((splitOn 59 row).map strip)

/-- The whole row loop. -/
def processAll : EncState → List PyStr → Option EncState
  | st, [] => some st
  | st, r :: rs => (processRow st r).bind fun st' => processAll st' rs

/-- The Python length of a group, `(end - start) + 1` over ℤ. -/
def groupLen (g : Group) : Int := (g.stop : Int) - (g.start : Int) + 1

/-- One 13-byte group table entry, given the running cumulative offset. -/
def groupEntryBytes (cum : Int) (g : Group) : Option (List Nat) :=
  (toBytesLE 4 g.start).bind fun sb =>
  (toBytesLE 4 g.stop).bind fun eb =>
  (intToBytesLE 4 cum).bind fun cb =>
  (toBytesLE 1 g.kind.val).bind fun kb =>
  some (sb ++ eb ++ cb ++ kb)

/-- The group serialization loop, carrying `cumulative_offset`. -/
def groupTableGo (cum : Int) : List Group → Option (List Nat)
  | [] => some []
  | g :: gs =>
    (groupEntryBytes cum g).bind fun e =>
    (groupTableGo (cum + groupLen g) gs).bind fun rest =>
    some (e ++ rest)

/-- The serialized group table (`cumulative_offset` starts at 0). -/
def groupTableBytes (gs : List Group) : Option (List Nat) := groupTableGo 0 gs

/-- The magic bytes `b'UTFDUMP!'`. -/
def magicBytes : List Nat := [0x55, 0x54, 0x46, 0x44, 0x55, 0x4D, 0x50, 0x21]

/-- The container assembly after the row loop (source lines 417-442):
group table, header lengths, concatenation. Note that the final state's
`inGroup` flag is never consulted. -/
def serializeState (st : EncState) : Option (List Nat) :=
  (groupTableBytes st.groups).bind fun gb =>
  (toBytesLE 4 gb.length).bind fun h1 =>
  (toBytesLE 4 st.charTable.length).bind fun h2 =>
  (toBytesLE 4 st.table.buf.length).bind fun h3 =>
  some (magicBytes ++ h1 ++ h2 ++ h3 ++ gb ++ st.charTable ++ st.table.buf)

/-- The whole encoding pipeline from the stripped nonempty input rows to
the container bytes (before the opaque gzip wrapping). -/
def encode (rows : List PyStr) : Option (List Nat) :=
  (processAll initState rows).bind serializeState

/-- Structural invariant of the string pool: every recorded offset points
at a length byte immediately followed by the string's UTF-8 bytes, all
inside the buffer. -/
def TableInv (t : StringTable) : Prop :=
  ∀ s i, dictFind t.map s = some i →
    i + 1 + (utf8Str s).length ≤ t.buf.length ∧
    (t.buf.drop i).take (1 + (utf8Str s).length) = (utf8Str s).length :: utf8Str s

theorem natToLE_length : ∀ l n : Nat, (natToLE l n).length = l
  | 0, _ => rfl
  | l + 1, n => by simp [natToLE, natToLE_length l]

theorem leNat_natToLE : ∀ l n : Nat, n < 256 ^ l → leNat (natToLE l n) = n
  | 0, n, h => by
    interval_cases n
    rfl
  | l + 1, n, h => by
    have hd : n / 256 < 256 ^ l := by
      rw [Nat.div_lt_iff_lt_mul (by norm_num : 0 < 256)]
      calc n < 256 ^ (l + 1) := h
        _ = 256 ^ l * 256 := by ring
    simp only [natToLE, leNat, leNat_natToLE l (n / 256) hd]
    omega

theorem toBytesLE_some {l n : Nat} {bs : List Nat} (h : toBytesLE l n = some bs) :
    bs = natToLE l n ∧ n < 256 ^ l := by
  unfold toBytesLE at h
  split at h
  · exact ⟨(Option.some_inj.mp h).symm, by assumption⟩
  · exact absurd h (by simp)

theorem intToBytesLE_some {l : Nat} {i : Int} {bs : List Nat}
    (h : intToBytesLE l i = some bs) :
    0 ≤ i ∧ (i.toNat : Int) = i ∧ bs = natToLE l i.toNat ∧ i.toNat < 256 ^ l := by
  unfold intToBytesLE at h
  split at h
  · exact absurd h (by simp)
  · rename_i hn
    obtain ⟨hb, hlt⟩ := toBytesLE_some h
    have h0 : 0 ≤ i := by omega
    exact ⟨h0, Int.toNat_of_nonneg h0, hb, hlt⟩

theorem drop_len_append (a b : List Nat) (n : Nat) :
    (a ++ b).drop (a.length + n) = b.drop n := by
  induction a with
  | nil => simp
  | cons x xs ih => simp [Nat.succ_add, ih]

theorem take_drop_append {a : List Nat} (x : List Nat) {i n : Nat}
    (h : i + n ≤ a.length) : ((a ++ x).drop i).take n = (a.drop i).take n := by
  rw [List.drop_append_eq_append_drop]
  rw [List.take_append_eq_append_take]
  have h1 : (a.drop i).length = a.length - i := List.length_drop i a
  have h2 : n - (a.drop i).length = 0 := by omega
  rw [h2, List.take_zero, List.append_nil]

theorem push_some_cases {t t' : StringTable} {s : PyStr} {i : Nat}
    (h : push t s = some (i, t')) :
    (dictFind t.map s = some i ∧ i < 0xffffff ∧ t' = t) ∨
    (dictFind t.map s = none ∧ i = t.buf.length ∧ i < 0xffffff ∧
      pyEncodable s = true ∧ (utf8Str s).length ≤ 255 ∧
      t' = ⟨t.buf ++ (utf8Str s).length :: utf8Str s, (s, t.buf.length) :: t.map⟩) := by
  unfold push at h
  split at h
  · rename_i j hf
    unfold fromInt at h
    split at h
    · exact absurd h (by simp)
    · rename_i hlt
      simp only [Option.map_some', Option.some_inj, Prod.mk.injEq] at h
      obtain ⟨h1, h2⟩ := h
      subst h1
      subst h2
      exact Or.inl ⟨hf, by omega, rfl⟩
  · rename_i hf
    split at h
    · rename_i henc
      split at h
      · rename_i hlen
        unfold fromInt at h
        split at h
        · exact absurd h (by simp)
        · rename_i hlt
          simp only [Option.map_some', Option.some_inj, Prod.mk.injEq] at h
          obtain ⟨h1, h2⟩ := h
          exact Or.inr ⟨hf, h1.symm, by omega, henc, hlen, h2.symm⟩
      · exact absurd h (by simp)
    · exact absurd h (by simp)

theorem push_found {t : StringTable} {s : PyStr} {i : Nat}
    (hf : dictFind t.map s = some i) (hi : i < 0xffffff) : push t s = some (i, t) := by
  unfold push
  rw [hf]
  show Option.map (fun j => (j, t)) (fromInt i) = some (i, t)
  unfold fromInt
  rw [if_neg (by omega)]
  rfl

theorem push_some_find {t t' : StringTable} {s : PyStr} {i : Nat}
    (h : push t s = some (i, t')) : dictFind t'.map s = some i ∧ i < 0xffffff := by
  rcases push_some_cases h with ⟨hf, hi, rfl⟩ | ⟨hf, hi, hlt, _, _, rfl⟩
  · exact ⟨hf, hi⟩
  · subst hi
    exact ⟨by simp [dictFind], hlt⟩

theorem push_map_mono {t t' : StringTable} {s0 s : PyStr} {j i : Nat}
    (h : push t s0 = some (j, t')) (hf : dictFind t.map s = some i) :
    dictFind t'.map s = some i := by
  rcases push_some_cases h with ⟨_, _, rfl⟩ | ⟨hf0, _, _, _, _, rfl⟩
  · exact hf
  · have hne : s ≠ s0 := by
      intro he
      rw [he, hf0] at hf
      exact absurd hf (by simp)
    simpa [dictFind, hne] using hf

theorem pushAll_map_mono {ss : List PyStr} :
    ∀ {t t' : StringTable} {s : PyStr} {i : Nat}, pushAll t ss = some t' →
      dictFind t.map s = some i → dictFind t'.map s = some i := by
  induction ss with
  | nil =>
    intro t t' s i h hf
    unfold pushAll at h
    simp only [Option.some_inj] at h
    exact h ▸ hf
  | cons s0 ss ih =>
    intro t t' s i h hf
    unfold pushAll at h
    simp only [Option.bind_eq_some] at h
    obtain ⟨⟨j, t1⟩, hp, hrest⟩ := h
    exact ih hrest (push_map_mono hp hf)

theorem tableInv_empty : TableInv emptyStringTable := by
  intro s i h
  exact absurd h (by simp [emptyStringTable, dictFind])

theorem push_inv {t t' : StringTable} {s0 : PyStr} {j : Nat} (hinv : TableInv t)
    (h : push t s0 = some (j, t')) : TableInv t' := by
  rcases push_some_cases h with ⟨_, _, rfl⟩ | ⟨hf0, hj, _, _, _, rfl⟩
  · exact hinv
  · intro s i hf
    simp only [dictFind] at hf
    by_cases hss : s = s0
    · subst hss
      rw [if_pos rfl] at hf
      obtain rfl : t.buf.length = i := Option.some_inj.mp hf
      constructor
      · simp only [List.length_append, List.length_cons]
        omega
      · rw [List.drop_left, Nat.add_comm, List.take_succ_cons, List.take_length]
    · rw [if_neg hss] at hf
      obtain ⟨hb, hseg⟩ := hinv s i hf
      constructor
      · simp only [List.length_append]
        omega
      · rw [take_drop_append _ (by omega)]
        exact hseg

theorem pushAll_inv {ss : List PyStr} :
    ∀ {t t' : StringTable}, TableInv t → pushAll t ss = some t' → TableInv t' := by
  induction ss with
  | nil =>
    intro t t' hinv h
    unfold pushAll at h
    exact Option.some_inj.mp h ▸ hinv
  | cons s0 ss ih =>
    intro t t' hinv h
    unfold pushAll at h
    simp only [Option.bind_eq_some] at h
    obtain ⟨⟨j, t1⟩, hp, hrest⟩ := h
    exact ih (push_inv hinv hp) hrest

theorem groupEntryBytes_some {cum : Int} {g : Group} {e : List Nat}
    (h : groupEntryBytes cum g = some e) :
    0 ≤ cum ∧ (cum.toNat : Int) = cum ∧ cum.toNat < 256 ^ 4 ∧
    e = natToLE 4 g.start ++ natToLE 4 g.stop ++ natToLE 4 cum.toNat ++
        natToLE 1 g.kind.val ∧
    e.length = 13 := by
  unfold groupEntryBytes at h
  simp only [Option.bind_eq_some] at h
  obtain ⟨sb, hsb, eb, heb, cb, hcb, kb, hkb, he⟩ := h
  obtain ⟨h1, hs1⟩ := toBytesLE_some hsb
  obtain ⟨h2, hs2⟩ := toBytesLE_some heb
  obtain ⟨hc0, hc1, h3, hc2⟩ := intToBytesLE_some hcb
  obtain ⟨h4, hs4⟩ := toBytesLE_some hkb
  subst h1
  subst h2
  subst h3
  subst h4
  simp only [Option.some_inj] at he
  subst he
  refine ⟨hc0, hc1, hc2, rfl, ?_⟩
  simp [natToLE_length]

theorem groupTableGo_length : ∀ (gs : List Group) (cum : Int) (bytes : List Nat),
    groupTableGo cum gs = some bytes → bytes.length = 13 * gs.length := by
  intro gs
  induction gs with
  | nil =>
    intro cum bytes h
    unfold groupTableGo at h
    simp only [Option.some_inj] at h
    subst h
    simp
  | cons g gs ih =>
    intro cum bytes h
    unfold groupTableGo at h
    simp only [Option.bind_eq_some] at h
    obtain ⟨e, he, rest, hrest, hb⟩ := h
    obtain ⟨_, _, _, _, hlen⟩ := groupEntryBytes_some he
    simp only [Option.some_inj] at hb
    subst hb
    simp only [List.length_append, List.length_cons, hlen, ih _ _ hrest]
    ring

theorem groupTableGo_offset : ∀ (gs : List Group) (cum : Int) (bytes : List Nat)
    (i : Nat), groupTableGo cum gs = some bytes → i < gs.length →
    (leNat ((bytes.drop (13 * i + 8)).take 4) : Int) =
      cum + ((gs.take i).map groupLen).sum := by
  intro gs
  induction gs with
  | nil =>
    intro cum bytes i h hi
    exact absurd hi (by simp)
  | cons g gs ih =>
    intro cum bytes i h hi
    unfold groupTableGo at h
    simp only [Option.bind_eq_some] at h
    obtain ⟨e, he, rest, hrest, hb⟩ := h
    simp only [Option.some_inj] at hb
    subst hb
    obtain ⟨hc0, hc1, hc2, hee, hlen⟩ := groupEntryBytes_some he
    cases i with
    | zero =>
      have hassoc : e ++ rest =
          (natToLE 4 g.start ++ natToLE 4 g.stop) ++
            (natToLE 4 cum.toNat ++ (natToLE 1 g.kind.val ++ rest)) := by
        subst hee
        simp [List.append_assoc]
      have hlen8 : (natToLE 4 g.start ++ natToLE 4 g.stop).length = 8 := by
        simp [natToLE_length]
      have hlen4 : (natToLE 4 cum.toNat).length = 4 := natToLE_length 4 _
      rw [show 13 * 0 + 8 = 8 by norm_num, hassoc, List.drop_left' hlen8,
        List.take_left' hlen4, leNat_natToLE 4 _ hc2]
      simp [hc1]
    | succ i =>
      have hsplit : 13 * (i + 1) + 8 = e.length + (13 * i + 8) := by
        rw [hlen]
        ring
      rw [hsplit, drop_len_append,
        ih (cum + groupLen g) rest i hrest (by simp only [List.length_cons] at hi; omega)]
      simp only [List.take_succ_cons, List.map_cons, List.sum_cons]
      ring

theorem encodeCharData_some {code name category combining bidi dkk dec : Nat}
    {dd dg : Option Nat} {nv : Nat} {mir : Bool} {onm cmt up lo ti : Nat}
    {r : List Nat}
    (h : encodeCharData code name category combining bidi dkk dec dd dg nv mir
      onm cmt up lo ti = some r) :
    ∃ fb nb kb db, fb.length = 2 ∧ nb.length = 3 ∧ kb.length = 1 ∧ db.length = 1 ∧
      r = fb ++ nb ++ natToLE 3 dec ++ natToLE 3 nv ++ natToLE 3 onm ++
          natToLE 3 cmt ++ natToLE 3 up ++ natToLE 3 lo ++ natToLE 3 ti ++
          kb ++ db := by
  unfold encodeCharData at h
  obtain ⟨fb, hfb, h⟩ := Option.bind_eq_some.mp h
  obtain ⟨nb, hnb, h⟩ := Option.bind_eq_some.mp h
  obtain ⟨db2, hdb, h⟩ := Option.bind_eq_some.mp h
  obtain ⟨vb, hvb, h⟩ := Option.bind_eq_some.mp h
  obtain ⟨ob, hob, h⟩ := Option.bind_eq_some.mp h
  obtain ⟨cb, hcb, h⟩ := Option.bind_eq_some.mp h
  obtain ⟨ub, hub, h⟩ := Option.bind_eq_some.mp h
  obtain ⟨lb, hlb, h⟩ := Option.bind_eq_some.mp h
  obtain ⟨tb, htb, h⟩ := Option.bind_eq_some.mp h
  obtain ⟨kb, hkb, h⟩ := Option.bind_eq_some.mp h
  obtain ⟨gb, hgb, hr⟩ := Option.bind_eq_some.mp h
  obtain ⟨h1, _⟩ := toBytesLE_some hfb
  obtain ⟨h2, _⟩ := toBytesLE_some hnb
  obtain ⟨h3, _⟩ := toBytesLE_some hdb
  obtain ⟨h4, _⟩ := toBytesLE_some hvb
  obtain ⟨h5, _⟩ := toBytesLE_some hob
  obtain ⟨h6, _⟩ := toBytesLE_some hcb
  obtain ⟨h7, _⟩ := toBytesLE_some hub
  obtain ⟨h8, _⟩ := toBytesLE_some hlb
  obtain ⟨h9, _⟩ := toBytesLE_some htb
  obtain ⟨h10, _⟩ := toBytesLE_some hkb
  obtain ⟨h11, _⟩ := toBytesLE_some hgb
  subst h1
  subst h2
  subst h3
  subst h4
  subst h5
  subst h6
  subst h7
  subst h8
  subst h9
  subst h10
  subst h11
  simp only [Option.some_inj] at hr
  subst hr
  exact ⟨_, _, _, _, natToLE_length 2 _, natToLE_length 3 _, natToLE_length 1 _,
    natToLE_length 1 _, rfl⟩

theorem encodeCharData_length {code name category combining bidi dkk dec : Nat}
    {dd dg : Option Nat} {nv : Nat} {mir : Bool} {onm cmt up lo ti : Nat}
    {r : List Nat}
    (h : encodeCharData code name category combining bidi dkk dec dd dg nv mir
      onm cmt up lo ti = some r) : r.length = 28 := by
  obtain ⟨fb, nb, kb, db, l1, l2, l3, l4, hr⟩ := encodeCharData_some h
  subst hr
  simp only [List.length_append, natToLE_length, l1, l2, l3, l4]

theorem makeRecord_some {st : EncState} {code : Nat}
    {c1 c2 c3 c4 c5 c6 c7 c8 c9 c10 c11 c12 c13 c14 : PyStr} {st' : EncState}
    (h : makeRecord st code c1 c2 c3 c4 c5 c6 c7 c8 c9 c10 c11 c12 c13 c14 =
      some st') :
    ∃ r t', r.length = 28 ∧
      st' = { st with
              charTable := st.charTable ++ r,
              table := t',
              inGroup := startsWith c1 (pstr "<") && endsWith c1 (pstr ", First>") } := by
  unfold makeRecord at h
  obtain ⟨np, hnp, h⟩ := Option.bind_eq_some.mp h
  obtain ⟨category, hcat, h⟩ := Option.bind_eq_some.mp h
  obtain ⟨combining, hcomb, h⟩ := Option.bind_eq_some.mp h
  obtain ⟨bidi, hbidi, h⟩ := Option.bind_eq_some.mp h
  obtain ⟨dk, hdk, h⟩ := Option.bind_eq_some.mp h
  obtain ⟨dd, hdd, h⟩ := Option.bind_eq_some.mp h
  obtain ⟨dg, hdg, h⟩ := Option.bind_eq_some.mp h
  obtain ⟨nv, hnv, h⟩ := Option.bind_eq_some.mp h
  obtain ⟨onm, honm, h⟩ := Option.bind_eq_some.mp h
  obtain ⟨cmt, hcmt, h⟩ := Option.bind_eq_some.mp h
  obtain ⟨up, hup, h⟩ := Option.bind_eq_some.mp h
  obtain ⟨lo, hlo, h⟩ := Option.bind_eq_some.mp h
  obtain ⟨ti, hti, h⟩ := Option.bind_eq_some.mp h
  obtain ⟨r, hr, hfin⟩ := Option.bind_eq_some.mp h
  exact ⟨r, ti.2, encodeCharData_length hr, (Option.some_inj.mp hfin).symm⟩

theorem closeRange_some {st : EncState} {code : Nat} {c1 : PyStr} {st' : EncState}
    (h : closeRange st code c1 = some st') :
    ∃ p, st.prevCode = some p ∧
      (startsWith c1 (pstr "<") && endsWith c1 (pstr ", Last>")) = true ∧
      st' = { st with
              groups := st.groups ++ [Group.mk .usePrev (p + 1) code],
              inGroup := false,
              prevCode := some code } := by
  unfold closeRange at h
  split at h
  · rename_i p hp
    split at h
    · rename_i hL
      exact ⟨p, hp, hL, (Option.some_inj.mp h).symm⟩
    · exact absurd h (by simp)
  · exact absurd h (by simp)

theorem processCells_some {st : EncState}
    {c0 c1 c2 c3 c4 c5 c6 c7 c8 c9 c10 c11 c12 c13 c14 : PyStr} {st' : EncState}
    (h : processCells st
      [c0, c1, c2, c3, c4, c5, c6, c7, c8, c9, c10, c11, c12, c13, c14] = some st') :
    ∃ code, parseHex c0 = some code ∧
      (st.prevCode = none ∨ ∃ p, st.prevCode = some p ∧ p < code) ∧
      ((st.inGroup = true ∧ closeRange st code c1 = some st') ∨
       (st.inGroup = false ∧
        makeRecord
          { st with
              groups := gapGroups st.groups st.prevCode code,
              prevCode := some code }
          code c1 c2 c3 c4 c5 c6 c7 c8 c9 c10 c11 c12 c13 c14 = some st')) := by
  unfold processCells at h
  obtain ⟨code, hcode, h⟩ := Option.bind_eq_some.mp h
  obtain ⟨u, hu, h⟩ := Option.bind_eq_some.mp h
  refine ⟨code, hcode, ?_, ?_⟩
  · cases hpv : st.prevCode with
    | none => exact Or.inl rfl
    | some p =>
      rw [hpv] at hu
      have hu' : (if p < code then some () else none) = some u := hu
      split at hu'
      · exact Or.inr ⟨p, rfl, by assumption⟩
      · exact absurd hu' (by simp)
  · cases hgg : st.inGroup with
    | true =>
      rw [hgg] at h
      rw [if_pos rfl] at h
      exact Or.inl ⟨rfl, h⟩
    | false =>
      rw [hgg] at h
      rw [if_neg (by simp)] at h
      exact Or.inr ⟨rfl, h⟩

theorem processCells_charTable {st : EncState} {cs : List PyStr} {st' : EncState}
    (h : processCells st cs = some st') :
    ∃ k, st'.charTable = st.charTable ++ k ∧ 28 ∣ k.length := by
  unfold processCells at h
  split at h
  next c0 c1 c2 c3 c4 c5 c6 c7 c8 c9 c10 c11 c12 c13 c14 =>
    obtain ⟨code, hcode, h⟩ := Option.bind_eq_some.mp h
    obtain ⟨u, hu, h⟩ := Option.bind_eq_some.mp h
    cases hgg : st.inGroup with
    | true =>
      rw [hgg, if_pos rfl] at h
      obtain ⟨p, hp, hL, rfl⟩ := closeRange_some h
      exact ⟨[], by simp, by simp⟩
    | false =>
      rw [hgg, if_neg (by simp)] at h
      obtain ⟨r, t', hlen, rfl⟩ := makeRecord_some h
      exact ⟨r, by simp, by simp [hlen]⟩
  next => exact absurd h (by simp)

theorem processRow_charTable {st : EncState} {row : PyStr} {st' : EncState}
    (h : processRow st row = some st') :
    ∃ k, st'.charTable = st.charTable ++ k ∧ 28 ∣ k.length := by
  unfold processRow at h
  exact processCells_charTable h

theorem processAll_charTable {rows : List PyStr} :
    ∀ {st st' : EncState}, processAll st rows = some st' →
      ∃ k, st'.charTable = st.charTable ++ k ∧ 28 ∣ k.length := by
  induction rows with
  | nil =>
    intro st st' h
    unfold processAll at h
    exact ⟨[], by simp [← Option.some_inj.mp h], by simp⟩
  | cons r rows ih =>
    intro st st' h
    unfold processAll at h
    obtain ⟨st1, h1, h2⟩ := Option.bind_eq_some.mp h
    obtain ⟨k1, hk1, hd1⟩ := processRow_charTable h1
    obtain ⟨k2, hk2, hd2⟩ := ih h2
    refine ⟨k1 ++ k2, ?_, ?_⟩
    · rw [hk2, hk1, List.append_assoc]
    · simp only [List.length_append]
      exact Nat.dvd_add hd1 hd2

theorem serializeState_some {st : EncState} {out : List Nat}
    (h : serializeState st = some out) :
    ∃ gb, groupTableBytes st.groups = some gb ∧
      gb.length < 256 ^ 4 ∧ st.charTable.length < 256 ^ 4 ∧
      st.table.buf.length < 256 ^ 4 ∧
      out = magicBytes ++ natToLE 4 gb.length ++ natToLE 4 st.charTable.length ++
        natToLE 4 st.table.buf.length ++ gb ++ st.charTable ++ st.table.buf := by
  unfold serializeState at h
  obtain ⟨gb, hgb, h⟩ := Option.bind_eq_some.mp h
  obtain ⟨h1, hh1, h⟩ := Option.bind_eq_some.mp h
  obtain ⟨h2, hh2, h⟩ := Option.bind_eq_some.mp h
  obtain ⟨h3, hh3, h⟩ := Option.bind_eq_some.mp h
  obtain ⟨e1, hb1⟩ := toBytesLE_some hh1
  obtain ⟨e2, hb2⟩ := toBytesLE_some hh2
  obtain ⟨e3, hb3⟩ := toBytesLE_some hh3
  subst e1
  subst e2
  subst e3
  exact ⟨gb, hgb, hb1, hb2, hb3, (Option.some_inj.mp h).symm⟩

/-- C1 (counterexample): the claim says the paired rows `<X, First>` at
`0x3400` and `<X, Last>` at `0x4DBF` yield the group
`(USE_PREV_VALUE, 0x3400, 0x4DBF)`; the code yields start `0x3401`
(`prev_code + 1`), one 28-byte record whose name index 0 points at the
pool entry for `"X"`. -/
theorem c1_counterexample :
    ((processAll initState
        [pstr "3400;<X, First>;Lo;0;L;;;;;N;;;;;",
         pstr "4DBF;<X, Last>;Lo;0;L;;;;;N;;;;;"]).map
      (fun st => (st.groups, st.charTable, st.table.buf))) =
      some ([Group.mk .usePrev 0x3401 0x4DBF],
        [18, 0, 0, 0, 0, 255, 255, 255, 255, 255, 255, 255, 255, 255, 255, 255,
         255, 255, 255, 255, 255, 255, 255, 255, 255, 255, 0, 15],
        [1, 88]) ∧
    Group.mk .usePrev 0x3401 0x4DBF ≠ Group.mk GroupKind.usePrev 0x3400 0x4DBF := by
  decide

/-- C1 (amended): processing a row while the tracker is `InRange` emits
exactly the group `Group(USE_PREV_VALUE, rangeStartCodepoint + 1,
currentCodepoint)` — one past the First-marker row's codepoint — creates
no character record and pushes no string, resets the tracker, and updates
`prev_code`. -/
theorem c1_range_group (st : EncState)
    (c0 c1 c2 c3 c4 c5 c6 c7 c8 c9 c10 c11 c12 c13 c14 : PyStr) (p code : Nat)
    (st' : EncState) (hg : st.inGroup = true) (hp : st.prevCode = some p)
    (hc : parseHex c0 = some code)
    (h : processCells st
      [c0, c1, c2, c3, c4, c5, c6, c7, c8, c9, c10, c11, c12, c13, c14] = some st') :
    st' = { st with
            groups := st.groups ++ [Group.mk .usePrev (p + 1) code],
            inGroup := false,
            prevCode := some code } := by
  obtain ⟨code', hc', _, hbr⟩ := processCells_some h
  rw [hc] at hc'
  obtain rfl : code = code' := Option.some_inj.mp hc'
  rcases hbr with ⟨_, hclose⟩ | ⟨hgf, _⟩
  · obtain ⟨p', hp', hL, rfl⟩ := closeRange_some hclose
    rw [hp] at hp'
    obtain rfl : p = p' := Option.some_inj.mp hp'
    rfl
  · rw [hg] at hgf
    exact absurd hgf (by simp)

/-- C1 (witness): the amended rule applied to the concrete `<X, Last>`
row at `0x4DBF` with the tracker in range since `0x3400`. -/
theorem c1_range_group_witness :
    EncState.mk
      [18, 0, 0, 0, 0, 255, 255, 255, 255, 255, 255, 255, 255, 255, 255, 255,
       255, 255, 255, 255, 255, 255, 255, 255, 255, 255, 0, 15]
      (StringTable.mk [1, 88] [([88], 0)]) [Group.mk .usePrev 13313 19903]
      false (some 19903) =
    { EncState.mk
        [18, 0, 0, 0, 0, 255, 255, 255, 255, 255, 255, 255, 255, 255, 255, 255,
         255, 255, 255, 255, 255, 255, 255, 255, 255, 255, 0, 15]
        (StringTable.mk [1, 88] [([88], 0)]) [] true (some 13312) with
        groups := [] ++ [Group.mk .usePrev (13312 + 1) 19903],
        inGroup := false,
        prevCode := some 19903 } :=
  c1_range_group
    (EncState.mk
      [18, 0, 0, 0, 0, 255, 255, 255, 255, 255, 255, 255, 255, 255, 255, 255,
       255, 255, 255, 255, 255, 255, 255, 255, 255, 255, 0, 15]
      (StringTable.mk [1, 88] [([88], 0)]) [] true (some 13312))
    (pstr "4DBF") (pstr "<X, Last>") (pstr "Lo") (pstr "0") (pstr "L")
    [] [] [] [] (pstr "N") [] [] [] [] [] 13312 19903
    (EncState.mk
      [18, 0, 0, 0, 0, 255, 255, 255, 255, 255, 255, 255, 255, 255, 255, 255,
       255, 255, 255, 255, 255, 255, 255, 255, 255, 255, 0, 15]
      (StringTable.mk [1, 88] [([88], 0)]) [Group.mk .usePrev 13313 19903]
      false (some 19903))
    rfl rfl (by decide) (by decide)

/-- C2 (code bug): for the row `0035;DIGIT FIVE;Nd;0;EN;;;5;5;N;;;;;`
(decimal-digit field empty, digit field `5`), the final record byte is
`0x0F`: its high nibble is 0, not the digit value 5 required by the claim
and by the format comment in the source, because `(digit << 4) & 0xf`
always masks the shifted digit away. The claim would require `0x5F`. -/
theorem c2_digit_nibble_bug :
    ((processAll initState [pstr "0035;DIGIT FIVE;Nd;0;EN;;;5;5;N;;;;;"]).map
      (fun st => st.charTable.drop 27)) = some [0x0f] ∧
    (0x0f : Nat) >>> 4 = 0 ∧ (0x0f : Nat) % 16 = 0xf ∧ (0x0f : Nat) ≠ 0x5f := by
  decide

/-- C3 (counterexample): after an input whose last row is a First-marker
row the tracker is left `InRange`, yet the run still produces container
output instead of aborting. -/
theorem c3_counterexample :
    ((processAll initState [pstr "3400;<X, First>;Lo;0;L;;;;;N;;;;;"]).map
      (fun st => st.inGroup)) = some true ∧
    (encode [pstr "3400;<X, First>;Lo;0;L;;;;;N;;;;;"]).isSome = true := by
  decide

/-- C3 (amended): the code performs no terminal check of the range
tracker: whenever the row loop succeeds, the run serializes the final
state as a container even when the tracker is still `InRange`, rather
than aborting. -/
theorem c3_no_terminal_check (rows : List PyStr) (st : EncState)
    (h : processAll initState rows = some st) (hg : st.inGroup = true) :
    encode rows = serializeState st := by
  unfold encode
  rw [h, Option.some_bind]

/-- C3 (witness): the one-row First-marker input: the loop ends `InRange`
and the run is exactly the serialization of that state. -/
theorem c3_no_terminal_check_witness :
    encode [pstr "3400;<X, First>;Lo;0;L;;;;;N;;;;;"] =
      serializeState
        (EncState.mk
          [18, 0, 0, 0, 0, 255, 255, 255, 255, 255, 255, 255, 255, 255, 255, 255,
           255, 255, 255, 255, 255, 255, 255, 255, 255, 255, 0, 15]
          (StringTable.mk [1, 88] [([88], 0)]) [] true (some 13312)) :=
  c3_no_terminal_check [pstr "3400;<X, First>;Lo;0;L;;;;;N;;;;;"]
    (EncState.mk
      [18, 0, 0, 0, 0, 255, 255, 255, 255, 255, 255, 255, 255, 255, 255, 255,
       255, 255, 255, 255, 255, 255, 255, 255, 255, 255, 0, 15]
      (StringTable.mk [1, 88] [([88], 0)]) [] true (some 13312))
    (by decide) rfl

/-- C4: `StringTable.push` dedup is idempotent and shared across roles:
after `s` was pushed (returning index `i`) and any further strings were
pushed, pushing `s` again returns the same index `i` and leaves the
table — buffer and dict — completely unchanged. -/
theorem c4_push_idempotent (t : StringTable) (s : PyStr) (i : Nat)
    (t1 : StringTable) (ss : List PyStr) (t2 : StringTable)
    (h1 : push t s = some (i, t1)) (h2 : pushAll t1 ss = some t2) :
    push t2 s = some (i, t2) := by
  obtain ⟨hf, hi⟩ := push_some_find h1
  exact push_found (pushAll_map_mono h2 hf) hi

/-- C4 (witness): pushing `"AB"`, then `"CD"`, then `"AB"` again returns
index 0 and the unchanged two-entry pool. -/
theorem c4_push_idempotent_witness :
    push (StringTable.mk [2, 65, 66, 2, 67, 68] [([67, 68], 3), ([65, 66], 0)])
      (pstr "AB") =
    some (0, StringTable.mk [2, 65, 66, 2, 67, 68] [([67, 68], 3), ([65, 66], 0)]) :=
  c4_push_idempotent emptyStringTable (pstr "AB") 0
    (StringTable.mk [2, 65, 66] [([65, 66], 0)]) [pstr "CD"]
    (StringTable.mk [2, 65, 66, 2, 67, 68] [([67, 68], 3), ([65, 66], 0)])
    (by decide) (by decide)

/-- C5: sentinel correctness: every index returned by a successful
`push` is strictly below `0xFFFFFF`; `from_int` is a fatal error at or
above `0xFFFFFF`; and in every created character record, each optional
cell (decomposition, numeric value, old name, comment, uppercase,
lowercase, titlecase) that is empty — independently of whether the other
cells are present or absent — is encoded as exactly `FF FF FF` in its
own 3-byte index slot of the 28-byte record. -/
theorem c5_sentinel :
    (∀ (t : StringTable) (s : PyStr) (i : Nat) (t' : StringTable),
      push t s = some (i, t') → i < 0xffffff) ∧
    (∀ i : Nat, 0xffffff ≤ i → fromInt i = none) ∧
    (∀ (st : EncState) (code : Nat)
      (c1 c2 c3 c4 c5c c6 c7 c8 c9 c10 c11 c12 c13 c14 : PyStr)
      (st' : EncState),
      makeRecord st code c1 c2 c3 c4 c5c c6 c7 c8 c9 c10 c11 c12 c13 c14 =
        some st' →
      ∃ fb nb db vb ob cb ub lb tb kb gb,
        fb.length = 2 ∧ nb.length = 3 ∧ db.length = 3 ∧ vb.length = 3 ∧
        ob.length = 3 ∧ cb.length = 3 ∧ ub.length = 3 ∧ lb.length = 3 ∧
        tb.length = 3 ∧ kb.length = 1 ∧ gb.length = 1 ∧
        st'.charTable = st.charTable ++
          (fb ++ nb ++ db ++ vb ++ ob ++ cb ++ ub ++ lb ++ tb ++ kb ++ gb) ∧
        (c5c = [] → db = [255, 255, 255]) ∧
        (c8 = [] → vb = [255, 255, 255]) ∧
        (c10 = [] → ob = [255, 255, 255]) ∧
        (c11 = [] → cb = [255, 255, 255]) ∧
        (c12 = [] → ub = [255, 255, 255]) ∧
        (c13 = [] → lb = [255, 255, 255]) ∧
        (c14 = [] → tb = [255, 255, 255])) := by
  refine ⟨?_, ?_, ?_⟩
  · intro t s i t' h
    exact (push_some_find h).2
  · intro i h
    simp [fromInt, h]
  · intro st code c1 c2 c3 c4 c5c c6 c7 c8 c9 c10 c11 c12 c13 c14 st' h
    unfold makeRecord at h
    obtain ⟨np, hnp, h⟩ := Option.bind_eq_some.mp h
    obtain ⟨category, hcat, h⟩ := Option.bind_eq_some.mp h
    obtain ⟨combining, hcomb, h⟩ := Option.bind_eq_some.mp h
    obtain ⟨bidi, hbidi, h⟩ := Option.bind_eq_some.mp h
    obtain ⟨dk, hdk, h⟩ := Option.bind_eq_some.mp h
    obtain ⟨dd, hdd, h⟩ := Option.bind_eq_some.mp h
    obtain ⟨dg, hdg, h⟩ := Option.bind_eq_some.mp h
    obtain ⟨nv, hnv, h⟩ := Option.bind_eq_some.mp h
    obtain ⟨onm, honm, h⟩ := Option.bind_eq_some.mp h
    obtain ⟨cmt, hcmt, h⟩ := Option.bind_eq_some.mp h
    obtain ⟨up, hup, h⟩ := Option.bind_eq_some.mp h
    obtain ⟨lo, hlo, h⟩ := Option.bind_eq_some.mp h
    obtain ⟨ti, hti, h⟩ := Option.bind_eq_some.mp h
    obtain ⟨r, hr, hfin⟩ := Option.bind_eq_some.mp h
    obtain ⟨fb, nb, kb, gb, l1, l2, l3, l4, hrr⟩ := encodeCharData_some hr
    refine ⟨fb, nb, natToLE 3 dk.2.1, natToLE 3 nv.1, natToLE 3 onm.1,
      natToLE 3 cmt.1, natToLE 3 up.1, natToLE 3 lo.1, natToLE 3 ti.1, kb, gb,
      l1, l2, natToLE_length 3 _, natToLE_length 3 _, natToLE_length 3 _,
      natToLE_length 3 _, natToLE_length 3 _, natToLE_length 3 _,
      natToLE_length 3 _, l3, l4, ?_, ?_, ?_, ?_, ?_, ?_, ?_, ?_⟩
    · rw [← Option.some_inj.mp hfin]
      show st.charTable ++ r = _
      rw [hrr]
    · intro hc
      subst hc
      have hof : handleDecomp np.2 [] = some (0, invalidIdx, np.2) := rfl
      rw [hof] at hdk
      rw [← Option.some_inj.mp hdk]
      exact (rfl : natToLE 3 invalidIdx = [255, 255, 255])
    · intro hc
      subst hc
      have hof : optPush dk.2.2 [] = some (invalidIdx, dk.2.2) := rfl
      rw [hof] at hnv
      rw [← Option.some_inj.mp hnv]
      exact (rfl : natToLE 3 invalidIdx = [255, 255, 255])
    · intro hc
      subst hc
      have hof : optPush nv.2 [] = some (invalidIdx, nv.2) := rfl
      rw [hof] at honm
      rw [← Option.some_inj.mp honm]
      exact (rfl : natToLE 3 invalidIdx = [255, 255, 255])
    · intro hc
      subst hc
      have hof : optPush onm.2 [] = some (invalidIdx, onm.2) := rfl
      rw [hof] at hcmt
      rw [← Option.some_inj.mp hcmt]
      exact (rfl : natToLE 3 invalidIdx = [255, 255, 255])
    · intro hc
      subst hc
      have hof : optCaseMap cmt.2 [] = some (invalidIdx, cmt.2) := rfl
      rw [hof] at hup
      rw [← Option.some_inj.mp hup]
      exact (rfl : natToLE 3 invalidIdx = [255, 255, 255])
    · intro hc
      subst hc
      have hof : optCaseMap up.2 [] = some (invalidIdx, up.2) := rfl
      rw [hof] at hlo
      rw [← Option.some_inj.mp hlo]
      exact (rfl : natToLE 3 invalidIdx = [255, 255, 255])
    · intro hc
      subst hc
      have hof : optCaseMap lo.2 [] = some (invalidIdx, lo.2) := rfl
      rw [hof] at hti
      rw [← Option.some_inj.mp hti]
      exact (rfl : natToLE 3 invalidIdx = [255, 255, 255])

/-- C5 (witness): a mixed record — decomposition `0041` and numeric
value `5` present, old name, comment and the three case mappings
absent — at the concrete cells of row `0035;X;Nd;0;EN;0041;;;5;N;;;;;`. -/
theorem c5_sentinel_witness :
    ∃ fb nb db vb ob cb ub lb tb kb gb,
      fb.length = 2 ∧ nb.length = 3 ∧ db.length = 3 ∧ vb.length = 3 ∧
      ob.length = 3 ∧ cb.length = 3 ∧ ub.length = 3 ∧ lb.length = 3 ∧
      tb.length = 3 ∧ kb.length = 1 ∧ gb.length = 1 ∧
      (EncState.mk
        [102, 4, 0, 0, 0, 2, 0, 0, 4, 0, 0, 255, 255, 255, 255, 255, 255, 255,
         255, 255, 255, 255, 255, 255, 255, 255, 0, 15]
        (StringTable.mk [1, 88, 1, 65, 1, 53] [([53], 4), ([65], 2), ([88], 0)])
        [] false none).charTable = (initState).charTable ++
        (fb ++ nb ++ db ++ vb ++ ob ++ cb ++ ub ++ lb ++ tb ++ kb ++ gb) ∧
      (pstr "0041" = ([] : PyStr) → db = [255, 255, 255]) ∧
      (pstr "5" = ([] : PyStr) → vb = [255, 255, 255]) ∧
      (([] : PyStr) = [] → ob = [255, 255, 255]) ∧
      (([] : PyStr) = [] → cb = [255, 255, 255]) ∧
      (([] : PyStr) = [] → ub = [255, 255, 255]) ∧
      (([] : PyStr) = [] → lb = [255, 255, 255]) ∧
      (([] : PyStr) = [] → tb = [255, 255, 255]) :=
  c5_sentinel.2.2 initState 53 (pstr "X") (pstr "Nd") (pstr "0") (pstr "EN")
    (pstr "0041") [] [] (pstr "5") (pstr "N") [] [] [] [] []
    (EncState.mk
      [102, 4, 0, 0, 0, 2, 0, 0, 4, 0, 0, 255, 255, 255, 255, 255, 255, 255,
       255, 255, 255, 255, 255, 255, 255, 255, 0, 15]
      (StringTable.mk [1, 88, 1, 65, 1, 53] [([53], 4), ([65], 2), ([88], 0)])
      [] false none)
    (by decide)

/-- C6: for every serialized group table, the 4-byte cumulative-offset
field of the entry at position `i` (bytes `13*i+8 .. 13*i+11`, little
endian) equals the sum of `(end - start + 1)` over the groups at
positions `0 .. i-1`. -/
theorem c6_cumulative_offset (gs : List Group) (bytes : List Nat) (i : Nat)
    (h : groupTableBytes gs = some bytes) (hi : i < gs.length) :
    (leNat ((bytes.drop (13 * i + 8)).take 4) : Int) =
      ((gs.take i).map groupLen).sum := by
  have hh := groupTableGo_offset gs 0 bytes i h hi
  simpa using hh

/-- C6 (witness): a two-group table; the second entry's offset field
holds 4 = (5 - 2 + 1). -/
theorem c6_cumulative_offset_witness :
    (leNat ((([2, 0, 0, 0, 5, 0, 0, 0, 0, 0, 0, 0, 0,
               10, 0, 0, 0, 12, 0, 0, 0, 4, 0, 0, 0, 1] : List Nat).drop
        (13 * 1 + 8)).take 4) : Int) =
      (([Group.mk .noValue 2 5, Group.mk .usePrev 10 12].take 1).map
        groupLen).sum :=
  c6_cumulative_offset [Group.mk .noValue 2 5, Group.mk .usePrev 10 12]
    [2, 0, 0, 0, 5, 0, 0, 0, 0, 0, 0, 0, 0,
     10, 0, 0, 0, 12, 0, 0, 0, 4, 0, 0, 0, 1] 1 (by decide) (by decide)

/-- C7: every successful run's container is exactly the 8-byte magic
`UTFDUMP!`, three 4-byte little-endian section lengths that equal the
exact byte lengths of the sections as written, then the group table
(13 bytes per group), character table (a multiple of 28 bytes, one
record each), and string pool, in that order. -/
theorem c7_container_layout (rows : List PyStr) (out : List Nat)
    (h : encode rows = some out) :
    ∃ st gb, processAll initState rows = some st ∧
      groupTableBytes st.groups = some gb ∧
      out = magicBytes ++ natToLE 4 gb.length ++ natToLE 4 st.charTable.length ++
        natToLE 4 st.table.buf.length ++ gb ++ st.charTable ++ st.table.buf ∧
      magicBytes = pstr "UTFDUMP!" ∧ magicBytes.length = 8 ∧
      gb.length = 13 * st.groups.length ∧
      (∃ n, st.charTable.length = 28 * n) ∧
      gb.length < 256 ^ 4 ∧ st.charTable.length < 256 ^ 4 ∧
      st.table.buf.length < 256 ^ 4 := by
  unfold encode at h
  obtain ⟨st, hst, hser⟩ := Option.bind_eq_some.mp h
  obtain ⟨gb, hgb, hb1, hb2, hb3, hout⟩ := serializeState_some hser
  obtain ⟨k, hk, n, hn⟩ := processAll_charTable hst
  refine ⟨st, gb, hst, hgb, hout, by decide, by decide,
    groupTableGo_length st.groups 0 gb hgb, ⟨n, ?_⟩, hb1, hb2, hb3⟩
  rw [hk]
  simp [initState, hn]

/-- C7 (witness): the container of the single-row run
`0041;A;Lu;0;L;;;;;N;;;;;`. -/
theorem c7_container_layout_witness :
    ∃ st gb, processAll initState [pstr "0041;A;Lu;0;L;;;;;N;;;;;"] = some st ∧
      groupTableBytes st.groups = some gb ∧
      [85, 84, 70, 68, 85, 77, 80, 33, 0, 0, 0, 0, 28, 0, 0, 0, 2, 0, 0, 0,
       0, 0, 0, 0, 0, 255, 255, 255, 255, 255, 255, 255, 255, 255, 255, 255,
       255, 255, 255, 255, 255, 255, 255, 255, 255, 255, 0, 15, 1, 65] =
        magicBytes ++ natToLE 4 gb.length ++ natToLE 4 st.charTable.length ++
        natToLE 4 st.table.buf.length ++ gb ++ st.charTable ++ st.table.buf ∧
      magicBytes = pstr "UTFDUMP!" ∧ magicBytes.length = 8 ∧
      gb.length = 13 * st.groups.length ∧
      (∃ n, st.charTable.length = 28 * n) ∧
      gb.length < 256 ^ 4 ∧ st.charTable.length < 256 ^ 4 ∧
      st.table.buf.length < 256 ^ 4 :=
  c7_container_layout [pstr "0041;A;Lu;0;L;;;;;N;;;;;"]
    [85, 84, 70, 68, 85, 77, 80, 33, 0, 0, 0, 0, 28, 0, 0, 0, 2, 0, 0, 0,
     0, 0, 0, 0, 0, 255, 255, 255, 255, 255, 255, 255, 255, 255, 255, 255,
     255, 255, 255, 255, 255, 255, 255, 255, 255, 255, 0, 15, 1, 65]
    (by decide)

/-- C8: when the tracker is not `InRange` and the current codepoint
exceeds the previous one plus 1, the row appends exactly one group
`Group(NO_VALUE, previous + 1, current - 1)` and exactly one 28-byte
character record (for the current row itself; none for the gap
codepoints). -/
theorem c8_gap_group (st : EncState)
    (c0 c1 c2 c3 c4 c5 c6 c7 c8 c9 c10 c11 c12 c13 c14 : PyStr) (p code : Nat)
    (st' : EncState) (hg : st.inGroup = false) (hp : st.prevCode = some p)
    (hc : parseHex c0 = some code) (hgap : p + 1 < code)
    (h : processCells st
      [c0, c1, c2, c3, c4, c5, c6, c7, c8, c9, c10, c11, c12, c13, c14] = some st') :
    st'.groups = st.groups ++ [Group.mk .noValue (p + 1) (code - 1)] ∧
    ∃ r, r.length = 28 ∧ st'.charTable = st.charTable ++ r := by
  obtain ⟨code', hc', _, hbr⟩ := processCells_some h
  rw [hc] at hc'
  obtain rfl : code = code' := Option.some_inj.mp hc'
  rcases hbr with ⟨hgt, _⟩ | ⟨_, hmk⟩
  · rw [hg] at hgt
    exact absurd hgt (by simp)
  · obtain ⟨r, t', hlen, rfl⟩ := makeRecord_some hmk
    constructor
    · show gapGroups st.groups st.prevCode code = _
      rw [hp]
      show (if p + 1 < code then
          st.groups ++ [Group.mk .noValue (p + 1) (code - 1)]
        else st.groups) = _
      rw [if_pos hgap]
    · exact ⟨r, hlen, rfl⟩

/-- C8 (witness): the gap rule at the concrete pair `0x0041` then
`0x00AA`, yielding the group `(NO_VALUE, 0x42, 0xA9)`. -/
theorem c8_gap_group_witness :
    (EncState.mk
      ([0, 0, 0, 0, 0, 255, 255, 255, 255, 255, 255, 255, 255, 255, 255, 255,
        255, 255, 255, 255, 255, 255, 255, 255, 255, 255, 0, 15] ++
       [18, 0, 2, 0, 0, 255, 255, 255, 255, 255, 255, 255, 255, 255, 255, 255,
        255, 255, 255, 255, 255, 255, 255, 255, 255, 255, 0, 15])
      (StringTable.mk [1, 65, 1, 66] [([66], 2), ([65], 0)])
      [Group.mk .noValue 66 169] false (some 170)).groups =
      (EncState.mk
        [0, 0, 0, 0, 0, 255, 255, 255, 255, 255, 255, 255, 255, 255, 255, 255,
         255, 255, 255, 255, 255, 255, 255, 255, 255, 255, 0, 15]
        (StringTable.mk [1, 65] [([65], 0)]) [] false (some 65)).groups ++
        [Group.mk .noValue (65 + 1) (170 - 1)] ∧
    ∃ r, r.length = 28 ∧
      (EncState.mk
        ([0, 0, 0, 0, 0, 255, 255, 255, 255, 255, 255, 255, 255, 255, 255, 255,
          255, 255, 255, 255, 255, 255, 255, 255, 255, 255, 0, 15] ++
         [18, 0, 2, 0, 0, 255, 255, 255, 255, 255, 255, 255, 255, 255, 255, 255,
          255, 255, 255, 255, 255, 255, 255, 255, 255, 255, 0, 15])
        (StringTable.mk [1, 65, 1, 66] [([66], 2), ([65], 0)])
        [Group.mk .noValue 66 169] false (some 170)).charTable =
      (EncState.mk
        [0, 0, 0, 0, 0, 255, 255, 255, 255, 255, 255, 255, 255, 255, 255, 255,
         255, 255, 255, 255, 255, 255, 255, 255, 255, 255, 0, 15]
        (StringTable.mk [1, 65] [([65], 0)]) [] false (some 65)).charTable ++ r :=
  c8_gap_group
    (EncState.mk
      [0, 0, 0, 0, 0, 255, 255, 255, 255, 255, 255, 255, 255, 255, 255, 255,
       255, 255, 255, 255, 255, 255, 255, 255, 255, 255, 0, 15]
      (StringTable.mk [1, 65] [([65], 0)]) [] false (some 65))
    (pstr "00AA") (pstr "B") (pstr "Lo") (pstr "0") (pstr "L")
    [] [] [] [] (pstr "N") [] [] [] [] [] 65 170
    (EncState.mk
      ([0, 0, 0, 0, 0, 255, 255, 255, 255, 255, 255, 255, 255, 255, 255, 255,
        255, 255, 255, 255, 255, 255, 255, 255, 255, 255, 0, 15] ++
       [18, 0, 2, 0, 0, 255, 255, 255, 255, 255, 255, 255, 255, 255, 255, 255,
        255, 255, 255, 255, 255, 255, 255, 255, 255, 255, 0, 15])
      (StringTable.mk [1, 65, 1, 66] [([66], 2), ([65], 0)])
      [Group.mk .noValue 66 169] false (some 170))
    rfl rfl (by decide) (by decide) (by decide)

/-- C9: decomposition parsing: a nonempty field without a leading `<`
has kind ANONYMOUS (1) and the whole field as codepoint list; with a
leading `<` the upper-cased bracketed tag selects the kind and the
remainder is the codepoint list, each hex codepoint converted to its
character, concatenated, and pushed to the pool; the concrete field
`<compat> 0032 0020` yields kind COMPAT (3) and the pooled two-character
string `"2 "` (codepoints `0x32 0x20`). -/
theorem c9_decomposition :
    (∀ (t : StringTable) (c s : PyStr) (i : Nat) (t' : StringTable),
      c ≠ [] → startsWith c (pstr "<") = false →
      parseCodepointString c = some s → push t s = some (i, t') →
      handleDecomp t c = some (1, i, t')) ∧
    (∀ (t : StringTable) (c a b : PyStr) (k : Nat) (s : PyStr) (i : Nat)
      (t' : StringTable),
      c ≠ [] → startsWith c (pstr "<") = true →
      splitOnce 62 (dropPre c (pstr "<")) = some (a, b) →
      enumOf decompTokens (upper (strip a)) = some k →
      parseCodepointString (strip b) = some s → push t s = some (i, t') →
      handleDecomp t c = some (k, i, t')) ∧
    handleDecomp emptyStringTable (pstr "<compat> 0032 0020") =
      some (3, 0, StringTable.mk [2, 50, 32] [([50, 32], 0)]) := by
  refine ⟨?_, ?_, by decide⟩
  · intro t c s i t' hne hsw hpc hpu
    unfold handleDecomp
    rw [if_neg hne, if_neg (by simp [hsw]), hpc, Option.some_bind, hpu]
    rfl
  · intro t c a b k s i t' hne hsw hsp hk hpc hpu
    unfold handleDecomp
    rw [if_neg hne, if_pos hsw, hsp, Option.some_bind]
    show (enumOf decompTokens (upper (strip a))).bind _ = _
    rw [hk, Option.some_bind, hpc, Option.some_bind, hpu]
    rfl

/-- C9 (witness): the anonymous case at the concrete field `0061`,
pooled as the single character `a`. -/
theorem c9_decomposition_witness :
    handleDecomp emptyStringTable (pstr "0061") =
      some (1, 0, StringTable.mk [1, 97] [([97], 0)]) :=
  c9_decomposition.1 emptyStringTable (pstr "0061") [97] 0
    (StringTable.mk [1, 97] [([97], 0)])
    (by decide) (by decide) (by decide) (by decide)

/-- C10: the index returned by `push` is the byte offset in the pool
buffer of a 1-byte length `L` immediately followed by the `L` UTF-8
bytes of the string, and this remains true after any later pushes,
starting from the empty pool. -/
theorem c10_pool_layout (ss0 : List PyStr) (t : StringTable) (s : PyStr)
    (i : Nat) (t1 : StringTable) (ss1 : List PyStr) (t2 : StringTable)
    (h0 : pushAll emptyStringTable ss0 = some t) (h1 : push t s = some (i, t1))
    (h2 : pushAll t1 ss1 = some t2) :
    (t2.buf.drop i).take (1 + (utf8Str s).length) =
      (utf8Str s).length :: utf8Str s := by
  have hinv : TableInv t2 :=
    pushAll_inv (push_inv (pushAll_inv tableInv_empty h0) h1) h2
  obtain ⟨hf, _⟩ := push_some_find h1
  exact (hinv s i (pushAll_map_mono h2 hf)).2

/-- C10 (witness): pushing `"A"`, then `"BC"` (offset 2), then `"D"`:
offset 2 of the final pool still holds `2 :: utf8 "BC"`. -/
theorem c10_pool_layout_witness :
    ((StringTable.mk [1, 65, 2, 66, 67, 1, 68]
        [([68], 5), ([66, 67], 2), ([65], 0)]).buf.drop 2).take
      (1 + (utf8Str (pstr "BC")).length) =
      (utf8Str (pstr "BC")).length :: utf8Str (pstr "BC") :=
  c10_pool_layout [pstr "A"] (StringTable.mk [1, 65] [([65], 0)]) (pstr "BC") 2
    (StringTable.mk [1, 65, 2, 66, 67] [([66, 67], 2), ([65], 0)]) [pstr "D"]
    (StringTable.mk [1, 65, 2, 66, 67, 1, 68]
      [([68], 5), ([66, 67], 2), ([65], 0)])
    (by decide) (by decide) (by decide)

end Utfdump
